import Mathlib

/-!
Verification of the list/traversal core of the `drive` repository
(`src/list.go`, package `drive`).

The Go source is shallowly embedded below.  Pure helpers (`sorters`,
`createMatchQuery`, `pretty`, the mask predicates, the partition/render
loop of `breadthFirst`) are translated directly.  The stateful, channel
driven parts (the paginated fetch protocol, the interactive prompt) are
modelled by an explicit linearization: the stream of values a directory's
page fetch delivers is recorded as a list of fetch events attached to the
remote node, and the interactive prompt is an oracle indexed by the number
of prompts issued so far.  Helpers of the repository that live outside
`src/list.go` (mask constants, `rootLike`, `sepJoin`, the sorter, ...)
are modelled from the spec and marked as such in their doc comments.
-/

namespace drive

/-- Modelled from the spec: match mode of one clause
(`matchMode ∈ {Equals, Like, Not, NotIn}`; the source spells `Equals` as `Is`).
The constants `Is`, `Like`, `Not`, `NotIn` are declared outside `src/list.go`. -/
inductive FuzzyLevel : Type where
  | Is : FuzzyLevel
  | Like : FuzzyLevel
  | Not : FuzzyLevel
  | NotIn : FuzzyLevel
deriving DecidableEq, Repr

/-- Modelled from the spec: join operator of a clause (AND/OR); the constants
`And`/`Or` are declared outside `src/list.go`. -/
inductive Joiner : Type where
  | And : Joiner
  | Or : Joiner
deriving DecidableEq, Repr

/-- Modelled from the spec: one clause
`(matchMode, values, restrictToTrash, joinOperator)`; the struct is declared
outside `src/list.go` but populated by `createMatchQuery`. -/
structure fuzzyStringsValuePair where
  fuzzyLevel : FuzzyLevel
  values : List String
  inTrash : Bool := false
  joiner : Joiner
deriving DecidableEq, Repr

/-- Modelled from the spec: the compound match predicate; the struct is
declared outside `src/list.go` but populated by `createMatchQuery`. -/
structure matchQuery where
  dirPath : String
  inTrash : Bool
  mimeQuerySearches : List fuzzyStringsValuePair
  titleSearches : List fuzzyStringsValuePair
  ownerSearches : List fuzzyStringsValuePair
deriving DecidableEq, Repr

/-- Modelled from the spec: the caller's permission on an entry (only the
role is read by the renderer). -/
structure Permission where
  Role : String
deriving DecidableEq, Repr

/-- Modelled from the spec (§3 Entry): the remote file/directory record;
the `File` type is declared outside `src/list.go`.  Only the fields read by
`src/list.go` are modelled. -/
structure File where
  Id : String
  Name : String
  IsDir : Bool
  Shared : Bool
  Size : Int
  ModTime : String
  Version : Int
  OwnerNames : List String
  UserPermission : Option Permission
deriving DecidableEq, Repr

/-- Modelled from the spec: mask bit for minimal output. -/
def Minimal : Nat := 1
/-- Modelled from the spec: mask bit for showing owners. -/
def Owners : Nat := 2
/-- Modelled from the spec: mask bit for showing the version. -/
def CurrentVersion : Nat := 4
/-- Modelled from the spec: mask bit for shared-only listings. -/
def Shared : Nat := 8
/-- Modelled from the spec: mask bit for trash listings. -/
def InTrash : Nat := 16
/-- Modelled from the spec: mask bit for disk-usage-only output. -/
def DiskUsageOnly : Nat := 32
/-- Modelled from the spec: mask bit for starred-only listings. -/
def Starred : Nat := 64
/-- Modelled from the spec: mask bit for team-drives mode. -/
def TeamDrives : Nat := 128
/-- Modelled from the spec: mask bit for the non-folders-only mode. -/
def NonFolder : Nat := 256

/-- From `src/list.go`: `diskUsageOnly(mask) = (mask & DiskUsageOnly) != 0`. -/
def diskUsageOnly (mask : Nat) : Bool := (mask &&& DiskUsageOnly) != 0

/-- From `src/list.go`: `isMinimal(mask) = (mask & Minimal) != 0`. -/
def isMinimal (mask : Nat) : Bool := (mask &&& Minimal) != 0

/-- From `src/list.go`: `owners(mask) = (mask & Owners) != 0`. -/
def owners (mask : Nat) : Bool := (mask &&& Owners) != 0

/-- From `src/list.go`: `version(mask) = (mask & CurrentVersion) != 0`. -/
def version (mask : Nat) : Bool := (mask &&& CurrentVersion) != 0

/-- From `src/list.go`: `shared(mask) = (mask & Shared) != 0`. -/
def shared (mask : Nat) : Bool := (mask &&& Shared) != 0

/-- From `src/list.go`: `trashed(mask) = (mask & InTrash) != 0`. -/
def trashed (mask : Nat) : Bool := (mask &&& InTrash) != 0

/-- From `src/list.go`: `starred(mask) = (mask & Starred) != 0`. -/
def starred (mask : Nat) : Bool := (mask &&& Starred) != 0

/-- From `src/list.go`: `teamDrives(mask) = (mask & TeamDrives) != 0`. -/
def teamDrives (mask : Nat) : Bool := (mask &&& TeamDrives) != 0

/-- Modelled from the spec: the non-folders-only mask mode tested by
`breadthFirst` via `nonFolderExplicitly(g.opts.TypeMask)`; declared outside
`src/list.go`, mirroring the other mask predicates. -/
def nonFolderExplicitly (mask : Nat) : Bool := (mask &&& NonFolder) != 0

/-- Modelled from the spec: documented meta key for sort keys. -/
def SortKey : String := "sort"
/-- Modelled from the spec: documented meta key `skip-mime`. -/
def SkipMimeKeyKey : String := "skip-mime"
/-- Modelled from the spec: documented meta key `match-mime`. -/
def MatchMimeKeyKey : String := "match-mime"
/-- Modelled from the spec: documented meta key `exact-title`. -/
def ExactTitleKey : String := "exact-title"
/-- Modelled from the spec: documented meta key `exact-owner`. -/
def ExactOwnerKey : String := "exact-owner"
/-- Modelled from the spec: documented meta key `match-owner`. -/
def MatchOwnerKey : String := "match-owner"
/-- Modelled from the spec: documented meta key `exclude-owner`. -/
def NotOwnerKey : String := "exclude-owner"

/-- The generic string-list meta map (`*map[string][]string` in the source),
modelled as an association list. -/
def MetaMap : Type := List (String × List String)

/-- Lookup in the meta map (Go map indexing with the `, ok` form). -/
def metaLookup (m : MetaMap) (key : String) : Option (List String) :=
  List.lookup key m

/-- Modelled from the spec: the options record carried by `Commands`; only
the fields read by `src/list.go` are modelled.  `canPrompt` models the
`(*Options).canPrompt()` method (declared outside `src/list.go`): whether
interactive prompting is enabled for this invocation. -/
structure Options where
  Depth : Int
  TypeMask : Nat
  Hidden : Bool
  InTrash : Bool
  Path : String
  Sources : List String
  Meta : Option MetaMap
  PageSize : Int
  canPrompt : Bool

/-- From `src/list.go` (`sorters`): extract the ordered sort-key list from
the options.  Each value declared under the sort key is comma-split, each
fragment space-trimmed, and the fragments appended in order; a `nil`
options pointer, a `nil` meta map or an absent key yield `nil`. -/
def sorters (opts : Option Options) : List String :=
  match opts with
  | none => []
  | some o =>
    match o.Meta with
    | none => []
    | some meta =>
      match metaLookup meta SortKey with
      | none => []
      | some retr =>
        retr.foldl (fun sortKeys attr =>
          (attr.splitOn ",").foldl (fun acc split => acc ++ [split.trim]) sortKeys) []

/-- Follows the spec's words (§4.1): a declared sort-key option value is
comma-split, each fragment trimmed of surrounding whitespace, and the
fragments become an ordered sort-key list; absent input yields no sort
keys.  Stated separately from `sorters` to compare the two. -/
def sortersSpec (opts : Option Options) : List String :=
  match opts with
  | none => []
  | some o =>
    match o.Meta with
    | none => []
    | some meta =>
      match metaLookup meta SortKey with
      | none => []
      | some retr => retr.flatMap (fun attr => (attr.splitOn ",").map (fun s => s.trim))

/-- From `src/list.go` (`createMatchQuery`): build the compound match query
from the recognized meta keys.  The `exactMatch` parameter is part of the
source signature. -/
def createMatchQuery (opts : Options) (exactMatch : Bool) : matchQuery :=
  let mimeQuerySearches : List fuzzyStringsValuePair := []
  let titleSearches : List fuzzyStringsValuePair := []
  let ownerSearches : List fuzzyStringsValuePair := []
  let (mimeQuerySearches, titleSearches, ownerSearches) :=
    match opts.Meta with
    | none => (mimeQuerySearches, titleSearches, ownerSearches)
    | some meta =>
      let mimeQuerySearches :=
        match metaLookup meta SkipMimeKeyKey with
        | none => mimeQuerySearches
        | some skipMimes => mimeQuerySearches ++
            [{ fuzzyLevel := FuzzyLevel.Not, values := skipMimes,
               inTrash := opts.InTrash, joiner := Joiner.And }]
      let mimeQuerySearches :=
        match metaLookup meta MatchMimeKeyKey with
        | none => mimeQuerySearches
        | some matchMimes => mimeQuerySearches ++
            [{ fuzzyLevel := FuzzyLevel.Is, values := matchMimes,
               inTrash := opts.InTrash, joiner := Joiner.Or }]
      let titleSearches :=
        match metaLookup meta ExactTitleKey with
        | none => titleSearches
        | some exactTitles => titleSearches ++
            [{ fuzzyLevel := FuzzyLevel.Is, values := exactTitles,
               inTrash := opts.InTrash, joiner := Joiner.Or }]
      let ownerSearches :=
        match metaLookup meta ExactOwnerKey with
        | none => ownerSearches
        | some exactOwners => ownerSearches ++
            [{ fuzzyLevel := FuzzyLevel.Is, values := exactOwners,
               joiner := Joiner.Or }]
      let ownerSearches :=
        match metaLookup meta MatchOwnerKey with
        | none => ownerSearches
        | some matchOwners => ownerSearches ++
            [{ fuzzyLevel := FuzzyLevel.Like, values := matchOwners,
               joiner := Joiner.Or }]
      let ownerSearches :=
        match metaLookup meta NotOwnerKey with
        | none => ownerSearches
        | some notOwner => ownerSearches ++
            [{ fuzzyLevel := FuzzyLevel.NotIn, values := notOwner,
               joiner := Joiner.And }]
      (mimeQuerySearches, titleSearches, ownerSearches)
  { dirPath := opts.Path
    inTrash := opts.InTrash
    mimeQuerySearches := mimeQuerySearches
    titleSearches := titleSearches
    ownerSearches := ownerSearches }

/-- Modelled from the spec (glossary "Root-like"): a name/path representing
the store's logical root — the empty string, `/`, or the sentinel root
marker.  Declared outside `src/list.go`. -/
def rootLike (p : String) : Bool := p == "" || p == "/" || p == "root"

/-- Modelled from the spec: the remote-side root sentinel; declared outside
`src/list.go`. -/
def remoteRootLike (p : String) : Bool := p == "root"

/-- Modelled from the spec: `sepJoin(sep, args...)` joins the arguments with
the separator (Go `strings.Join`); declared outside `src/list.go`. -/
def sepJoin (sep : String) (args : List String) : String :=
  String.intercalate sep args

/-- The new-head-path computation of `breadthFirst` (`src/list.go` lines
429-432): join parent and name with `/` unless both are root-like, in which
case the parent is kept unchanged. -/
def newParent (parent name : String) : String :=
  if rootLike parent && rootLike name then parent else sepJoin "/" [parent, name]

/-- From `src/list.go`: the `attribute` presentation record (named `attr`
here because `attribute` is reserved in Lean). -/
structure attr where
  minimal : Bool
  mask : Nat
  parent : String
  diskUsageOnly : Bool
deriving DecidableEq, Repr

/-- Left-justified minimum-width formatting (Go `%-Nv` / `%-Ns`). -/
def leftJustify (s : String) (w : Nat) : String :=
  s ++ String.mk (List.replicate (w - s.length) ' ')

/-- Modelled from the spec: humanized byte size used by the full rendering
mode; a presentation detail, declared outside `src/list.go`. -/
def prettyBytes (n : Int) : String := toString n

/-- From `src/list.go` (`(*File).pretty`): render one entry as the string it
writes to the log.  Translated statement by statement: the disk-usage-only
branch returns after size and path; the minimal branch prints only the
path; the full branch prints the directory and shared indicators, the
permission role if present; then (in the two latter branches) owners and
version when the mask requests them, and finally either the
size/id/modtime/path columns (full) or a bare newline (minimal). -/
def pretty (f : File) (opt : attr) : String :=
  let fmtdPath := sepJoin "/" [opt.parent, f.Name]
  if opt.diskUsageOnly then
    leftJustify (toString f.Size) 12 ++ " " ++ fmtdPath ++ "\n"
  else
    let head :=
      if opt.minimal then fmtdPath
      else
        (if f.IsDir then "d" else "-") ++
        (if f.Shared then "s" else "-") ++
        (match f.UserPermission with
         | some p => " " ++ leftJustify p.Role 10 ++ " "
         | none => "")
    let head :=
      if owners opt.mask && f.OwnerNames.length ≥ 1 then
        head ++ " " ++ String.intercalate " & " f.OwnerNames ++ " "
      else head
    let head :=
      if version opt.mask then head ++ " v" ++ toString f.Version
      else head
    if !opt.minimal then
      head ++ " " ++ leftJustify (prettyBytes f.Size) 10 ++ "\t" ++
        leftJustify f.Id 10 ++ "\t\t" ++ leftJustify f.ModTime 20 ++ "\t" ++
        fmtdPath ++ "\n"
    else
      head ++ "\n"

/-- One event observed while draining a page-pair's channels, in the order
the `select` loop consumes them: a non-nil value on the error channel
(`errEv`), a `nil` entry on the files channel (`nilEv`), or a delivered
entry (`fileEv`).  Nil errors and the final channel close are not events:
the list ending is the close. -/
inductive FetchEvent (α : Type) : Type where
  | errEv : FetchEvent α
  | nilEv : FetchEvent α
  | fileEv : α → FetchEvent α
deriving Repr

/-- The remote structure seen by one traversal: an entry together with the
linearized stream of events that fetching its children delivers
(`paginator` + channel pair in the source). -/
inductive RNode : Type where
  | node : File → List (FetchEvent RNode) → RNode

/-- The entry of a remote node (`travSt.file`). -/
def RNode.file : RNode → File
  | .node f _ => f

/-- The fetch-event stream of a remote node's children listing. -/
def RNode.events : RNode → List (FetchEvent RNode)
  | .node _ evs => evs

/-- Replace the entry's name (the source mutates `r.Name` in place). -/
def RNode.setName : RNode → String → RNode
  | .node f evs, n => .node { f with Name := n } evs

/-- From `src/list.go` (`traversalSt`): the per-call traversal state.  The
`file` field is widened to the remote node so the model carries the fetch
streams alongside the entry. -/
structure traversalSt where
  node : RNode
  headPath : String
  depth : Int
  mask : Nat
  inTrash : Bool
  explicitNoPrompt : Bool := false
  sorters : List String := []
  matchQuery : Option matchQuery := none

/-- Modelled from the spec: `isHidden(name, hidden)` — the hidden-file
policy consulted while collecting a page; declared outside `src/list.go`.
When the caller asked for hidden files nothing is hidden, otherwise
dot-files are. -/
def isHidden (name : String) (showHidden : Bool) : Bool :=
  if showHidden then false else name.data.head? == some '.'

/-- An observable output of a traversal: a rendered entry or an issued
continuation prompt, each tagged with the directory level (distance from
the traversal root) it was produced at. -/
inductive Event : Type where
  | render : File → attr → Nat → Event
  | prompt : Nat → Bool → Event
deriving DecidableEq, Repr

/-- The level an event was produced at. -/
def Event.level : Event → Nat
  | .render _ _ lv => lv
  | .prompt lv _ => lv

/-- Result of one `breadthFirst` call: the boolean the source returns, the
ordered outputs it produced, and the next unused index into the prompt
oracle. -/
structure BFRes where
  ok : Bool
  events : List Event
  promptIdx : Nat
deriving DecidableEq, Repr

/-- Outcome of resolving one root locator (`resolver(relPath)` in
`Commands.List`): a lookup error other than `ErrPathNotExists` (`errRes`),
a `nil` result or `ErrPathNotExists` (`notFound`), or a found remote node. -/
inductive LookupRes : Type where
  | errRes : LookupRes
  | notFound : LookupRes
  | found : RNode → LookupRes

/-- The command context: the options plus the external collaborators
consumed by `src/list.go`, each modelled as a pure oracle.  `resolveByPath`
and `resolveById` model `g.rem.FindByPath` / `g.rem.FindById`;
`parentPather` the path-splitting helper; `findMatches` and
`findByPathShared` the remote match/shared listings; `nextPage` the
interactive continuation prompt, indexed by the number of prompts issued
so far. -/
structure Commands where
  opts : Options
  resolveByPath : String → LookupRes
  resolveById : String → LookupRes
  parentPather : String → String
  findMatches : matchQuery → List (FetchEvent RNode)
  findByPathShared : String → List (FetchEvent RNode)
  nextPage : Nat → Bool

/-- The channel-drain loop of `breadthFirst` (`src/list.go` lines 464-486):
consume fetch events in order; a non-nil error returns failure for the
branch, a `nil` entry returns failure immediately (later events are not
consumed), a delivered entry is appended to the collector unless the
hidden-file policy skips it, and the channel close (end of list) completes
the drain. -/
def drain (showHidden : Bool) : List (FetchEvent RNode) → Except Unit (List RNode)
  | [] => .ok []
  | .errEv :: _ => .error ()
  | .nilEv :: _ => .error ()
  | .fileEv file :: rest =>
    match drain showHidden rest with
    | .error e => .error e
    | .ok l => .ok (if !isHidden file.file.Name showHidden then file :: l else l)

/-- Modelled from the spec (§4.3 Sorter): compare two entries under one
named comparison key from the fixed registry; unknown key names compare
equal (ignored, graceful degradation). -/
def keyCompare (key : String) (a b : File) : Ordering :=
  if key == "name" then compare a.Name b.Name
  else if key == "size" then compare a.Size b.Size
  else if key == "modtime" then compare a.ModTime b.ModTime
  else if key == "version" then compare a.Version b.Version
  else Ordering.eq

/-- Modelled from the spec (§4.3 Sorter): multi-key comparison; later keys
are tie-breakers for earlier ones. -/
def multiKeyLE (keys : List String) (a b : File) : Bool :=
  match keys with
  | [] => true
  | k :: rest =>
    match keyCompare k a b with
    | .lt => true
    | .gt => false
    | .eq => multiKeyLE rest a b

/-- Stable insertion of an element into a sorted list: the element goes in
front of the first position it is `le` to, hence in front of later-arrived
equal elements and behind earlier-arrived ones. -/
def insertLE (le : RNode → RNode → Bool) (x : RNode) : List RNode → List RNode
  | [] => [x]
  | y :: ys => if le x y then x :: y :: ys else y :: insertLE le x ys

/-- Stable insertion sort (sorting is applied to a fully-materialized page,
so a simple quadratic sort is a faithful model). -/
def insertionSort (le : RNode → RNode → Bool) : List RNode → List RNode
  | [] => []
  | x :: xs => insertLE le x (insertionSort le xs)

/-- Modelled from the spec (§4.3 Sorter): `g.sort(entries, keys...)` — the
stable multi-key sort the traversal applies to a collected page; declared
outside `src/list.go`. -/
def Commands.sort (_g : Commands) (entries : List RNode) (keys : List String) : List RNode :=
  insertionSort (fun x y => multiKeyLE keys x.file y.file) entries

/-- The partition-and-render loop of `breadthFirst` (`src/list.go` lines
492-507): walk the (sorted) collector in order; every directory is added
to the children list; an entry is rendered unless the non-folders-only
mode is set and the entry is a directory.  Returns the children list and
the rendered entries, both in collector order. -/
def partitionRender (onlyFiles : Bool) : List RNode → List RNode × List File
  | [] => ([], [])
  | file :: rest =>
    let (children, rendered) := partitionRender onlyFiles rest
    let children := if file.file.IsDir then file :: children else children
    let rendered :=
      if onlyFiles && file.file.IsDir then rendered
      else file.file :: rendered
    (children, rendered)

theorem insertLE_sizeOf (le : RNode → RNode → Bool) (x : RNode) (l : List RNode) :
    sizeOf (insertLE le x l) = 1 + sizeOf x + sizeOf l := by
  induction l with
  | nil => simp [insertLE]
  | cons y ys ih =>
    simp only [insertLE]
    cases h : le x y with
    | true =>
      simp only [if_true, List.cons.sizeOf_spec]
    | false =>
      simp only [Bool.false_eq_true, if_false, List.cons.sizeOf_spec, ih]
      omega

theorem insertionSort_sizeOf (le : RNode → RNode → Bool) (l : List RNode) :
    sizeOf (insertionSort le l) = sizeOf l := by
  induction l with
  | nil => rfl
  | cons x xs ih =>
    simp only [insertionSort, insertLE_sizeOf, ih, List.cons.sizeOf_spec]

theorem drain_sizeOf_le (showHidden : Bool) (evs : List (FetchEvent RNode))
    (l : List RNode) (h : drain showHidden evs = .ok l) : sizeOf l ≤ sizeOf evs := by
  induction evs generalizing l with
  | nil =>
    simp [drain] at h
    subst h; simp
  | cons e rest ih =>
    cases e with
    | errEv => simp [drain] at h
    | nilEv => simp [drain] at h
    | fileEv c =>
      simp only [drain] at h
      cases hr : drain showHidden rest with
      | error e => rw [hr] at h; simp at h
      | ok l' =>
        rw [hr] at h
        simp only [Except.ok.injEq] at h
        have hle := ih l' hr
        have hc : sizeOf (FetchEvent.fileEv c) = 1 + sizeOf c := by simp
        by_cases hh : !isHidden c.file.Name showHidden
        · rw [if_pos hh] at h
          subst h
          simp only [List.cons.sizeOf_spec]
          omega
        · rw [if_neg hh] at h
          subst h
          simp only [List.cons.sizeOf_spec]
          omega

theorem filter_sizeOf_le (p : RNode → Bool) (l : List RNode) :
    sizeOf (List.filter p l) ≤ sizeOf l := by
  induction l with
  | nil => simp
  | cons a l ih =>
    simp only [List.filter]
    cases p a <;> simp only [List.cons.sizeOf_spec] <;> omega

theorem partitionRender_children_eq (onlyFiles : Bool) (l : List RNode) :
    (partitionRender onlyFiles l).1 = List.filter (fun c => c.file.IsDir) l := by
  induction l with
  | nil => rfl
  | cons a l ih =>
    simp only [partitionRender, List.filter, ih]
    cases h : a.file.IsDir <;> simp [h]

theorem partitionRender_rendered_eq (onlyFiles : Bool) (l : List RNode) :
    (partitionRender onlyFiles l).2 =
      (List.filter (fun c => !(onlyFiles && c.file.IsDir)) l).map RNode.file := by
  induction l with
  | nil => rfl
  | cons a l ih =>
    simp only [partitionRender, List.filter, ih]
    cases h : onlyFiles && a.file.IsDir <;> simp [h]

theorem partitionRender_children_sizeOf_le (onlyFiles : Bool) (l : List RNode) :
    sizeOf (partitionRender onlyFiles l).1 ≤ sizeOf l := by
  rw [partitionRender_children_eq]
  exact filter_sizeOf_le _ l

theorem sort_sizeOf (g : Commands) (l : List RNode) (keys : List String) :
    sizeOf (g.sort l keys) = sizeOf l :=
  insertionSort_sizeOf _ l

theorem File.sizeOf_pos (f : File) : 0 < sizeOf f := by
  cases f
  simp only [File.mk.sizeOf_spec]
  omega

mutual

/-- From `src/list.go` (`(*Commands).breadthFirst`), translated statement by
statement.  The busy-indicator pause/play around the prompt decision is a
pure presentation effect and is not part of the observable model.  `level`
is a ghost annotation recording the distance from the traversal root (the
tag on produced events); `pidx` threads the prompt oracle.  The part of
the source following a successful channel drain is split into
`afterCollect` to keep the equations small. -/
def breadthFirst (g : Commands) (travSt : traversalSt) (level pidx : Nat) : BFRes :=
  match hn : travSt.node with
  | .node f evs =>
    let opt : attr :=
      { minimal := isMinimal g.opts.TypeMask
        diskUsageOnly := diskUsageOnly g.opts.TypeMask
        mask := travSt.mask
        parent := if travSt.headPath = "/" then "" else travSt.headPath }
    if f.IsDir = false then
      ⟨true, [Event.render f opt level], pidx⟩
    else
      let opt := { opt with parent := newParent opt.parent f.Name }
      if travSt.depth = 0 then
        ⟨true, [], pidx⟩
      else
        let depth := if travSt.depth > 0 then travSt.depth - 1 else travSt.depth
        match hd : drain g.opts.Hidden evs with
        | .error _ => ⟨false, [], pidx⟩
        | .ok collector0 =>
          let collector :=
            if travSt.sorters.length ≥ 1 then g.sort collector0 travSt.sorters
            else collector0
          afterCollect g travSt opt depth collector level pidx
termination_by (sizeOf travSt.node, 0)
decreasing_by
  rw [hn]
  simp only [RNode.node.sizeOf_spec, dite_eq_ite]
  refine Prod.Lex.left _ _ ?_
  have h2 : sizeOf (if travSt.sorters.length ≥ 1 then
      Commands.sort g collector0 travSt.sorters else collector0) =
      sizeOf collector0 := by
    split
    · exact sort_sizeOf g collector0 travSt.sorters
    · rfl
  have h3 := drain_sizeOf_le g.opts.Hidden evs collector0 hd
  have h4 := File.sizeOf_pos f
  omega

/-- The remainder of `breadthFirst` after the page drain succeeded and the
optional sort was applied (`src/list.go` lines 492-538): partition and
render, the interactive continuation gate, the recursion into directory
children, and the trash-mode terminal success criterion. -/
def afterCollect (g : Commands) (travSt : traversalSt) (opt : attr) (depth : Int)
    (collector : List RNode) (level pidx : Nat) : BFRes :=
  let canPrompt := !travSt.explicitNoPrompt && g.opts.canPrompt
  let onlyFiles := nonFolderExplicitly g.opts.TypeMask
  let children := (partitionRender onlyFiles collector).1
  let rendered := (partitionRender onlyFiles collector).2
  let renderEvents := rendered.map (fun fl => Event.render fl opt (level + 1))
  let iterCount := rendered.length
  if !travSt.inTrash && !g.opts.InTrash then
    let canPage := decide (depth ≠ 0) && decide (children.length > 0)
    if canPage && canPrompt then
      let ans := g.nextPage pidx
      if !ans then
        ⟨false, renderEvents ++ [Event.prompt level ans], pidx + 1⟩
      else
        let r := goChildren g travSt opt.parent depth children (level + 1) (pidx + 1)
        ⟨r.ok, renderEvents ++ [Event.prompt level ans] ++ r.events, r.promptIdx⟩
    else
      let r := goChildren g travSt opt.parent depth children (level + 1) pidx
      ⟨r.ok, renderEvents ++ r.events, r.promptIdx⟩
  else
    ⟨decide (iterCount ≥ 1), renderEvents, pidx⟩
termination_by (sizeOf collector, 1)
decreasing_by
  all_goals
    refine Prod.Lex.right' _ ?_ ?_
    · exact partitionRender_children_sizeOf_le (nonFolderExplicitly g.opts.TypeMask) collector
    · omega

/-- The recursion loop of `breadthFirst` over the collected directory
children (`src/list.go` lines 519-535): each child inherits the trash
flag, no-prompt flag, sort keys and match query, gets the new head path
and the (possibly decremented) depth, and its mask is re-read from
`g.opts.TypeMask`; the first failing child aborts the loop. -/
def goChildren (g : Commands) (travSt : traversalSt) (headPath : String) (depth : Int)
    (children : List RNode) (level pidx : Nat) : BFRes :=
  match children with
  | [] => ⟨true, [], pidx⟩
  | file :: rest =>
    let childSt : traversalSt :=
      { node := file
        headPath := headPath
        depth := depth
        mask := g.opts.TypeMask
        inTrash := travSt.inTrash
        explicitNoPrompt := travSt.explicitNoPrompt
        sorters := travSt.sorters
        matchQuery := travSt.matchQuery }
    let r := breadthFirst g childSt level pidx
    if r.ok then
      let r2 := goChildren g travSt headPath depth rest level r.promptIdx
      ⟨r2.ok, r.events ++ r2.events, r2.promptIdx⟩
    else
      ⟨false, r.events, r.promptIdx⟩
termination_by (sizeOf children, 0)
decreasing_by
  · refine Prod.Lex.left _ _ ?_
    simp only [List.cons.sizeOf_spec]
    omega
  · refine Prod.Lex.left _ _ ?_
    simp only [List.cons.sizeOf_spec]
    omega

end

/-- From the source (`keyValue`, used by `Commands.List` / `ListShared`):
a parent path paired with the resolved root value. -/
structure keyValue where
  key : String
  value : RNode

/-- Modelled from the spec: quoting helper used by the per-root warning
message; declared outside `src/list.go`. -/
def customQuote (s : String) : String := "\"" ++ s ++ "\""

/-- The per-root warning `Commands.List` logs when a locator cannot be
found remotely (`src/list.go` line 209). -/
def warnMsg (relPath : String) : String :=
  customQuote relPath ++ " cannot be found remotely\n"

/-- The root-resolution loop of `Commands.List` (`src/list.go` lines
201-231): resolve each source locator in order; a lookup error other than
`ErrPathNotExists` aborts the whole invocation (the error value carries
the warnings already logged); a `nil` result logs a per-root warning and
continues; a found root has its parent path computed and normalized and is
appended to the key-value list. -/
def resolveSources (g : Commands) (byId : Bool) :
    List String → Except (List String) (List keyValue × List String)
  | [] => .ok ([], [])
  | relPath :: rest =>
    match (if byId then g.resolveById relPath else g.resolveByPath relPath) with
    | .errRes => .error []
    | .notFound =>
      match resolveSources g byId rest with
      | .error warns => .error (warnMsg relPath :: warns)
      | .ok (kvList, warns) => .ok (kvList, warnMsg relPath :: warns)
    | .found r =>
      let parentPath := if byId = false then g.parentPather relPath else r.file.Id
      let parentPath := if remoteRootLike parentPath then "" else parentPath
      let r := if remoteRootLike r.file.Name then r.setName "" else r
      let parentPath := if rootLike parentPath then "" else parentPath
      match resolveSources g byId rest with
      | .error warns => .error warns
      | .ok (kvList, warns) => .ok ({ key := parentPath, value := r } :: kvList, warns)

/-- The traversal loop of `Commands.List` (`src/list.go` lines 235-253):
build one traversal state per resolved root and run `breadthFirst`; the
first failing traversal breaks the loop. -/
def traverseKvs (g : Commands) (mq : matchQuery) :
    List keyValue → Nat → List Event × Nat
  | [], pidx => ([], pidx)
  | kv :: rest, pidx =>
    let travSt : traversalSt :=
      { node := kv.value
        headPath := kv.key
        depth := g.opts.Depth
        inTrash := g.opts.InTrash
        mask := g.opts.TypeMask
        sorters := sorters (some g.opts)
        matchQuery := some mq }
    let r := breadthFirst g travSt 0 pidx
    if r.ok then
      let rest' := traverseKvs g mq rest r.promptIdx
      (r.events ++ rest'.1, rest'.2)
    else
      (r.events, r.promptIdx)

/-- Result of a `Commands.List` invocation: whether it returned a fatal
error, the per-root warnings logged, and the traversal outputs produced. -/
structure ListRes where
  fatal : Bool
  warnings : List String
  events : List Event
deriving DecidableEq, Repr

/-- Result of a `Commands.ListMatches` invocation: whether the fetch error
channel signalled an error, the traversal outputs, and the number of
traversals started (`traversalCount`; the source logs "no matches found!"
when it stays zero). -/
structure MatchesRes where
  err : Bool
  events : List Event
  traversalCount : Nat
  promptIdx : Nat
deriving DecidableEq, Repr

/-- The drain loop of `Commands.ListMatches` (`src/list.go` lines 89-120):
a non-nil error on the error channel returns it; a `nil` match is skipped;
each delivered match is traversed with `breadthFirst`.  A failing
traversal executes a `break` that only leaves the inner `select`, so the
loop keeps consuming matches regardless of the traversal result. -/
def listMatchesLoop (g : Commands) : List (FetchEvent RNode) → Nat → MatchesRes
  | [], pidx => { err := false, events := [], traversalCount := 0, promptIdx := pidx }
  | .errEv :: _, pidx => { err := true, events := [], traversalCount := 0, promptIdx := pidx }
  | .nilEv :: rest, pidx => listMatchesLoop g rest pidx
  | .fileEv m :: rest, pidx =>
    let travSt : traversalSt :=
      { node := m
        depth := g.opts.Depth
        headPath := g.opts.Path
        inTrash := g.opts.InTrash
        mask := g.opts.TypeMask
        sorters := sorters (some g.opts) }
    let r := breadthFirst g travSt 0 pidx
    let res := listMatchesLoop g rest r.promptIdx
    { res with events := r.events ++ res.events, traversalCount := res.traversalCount + 1 }

/-- From `src/list.go` (`(*Commands).ListMatches`): build the match query
(with `exactMatch = false`), append a fuzzy title clause for the source
terms, and drain the remote match stream. -/
def Commands.ListMatches (g : Commands) : MatchesRes :=
  let inTrash := trashed g.opts.TypeMask
  let mq0 := createMatchQuery g.opts false
  let mq := { mq0 with titleSearches := mq0.titleSearches ++
      [{ fuzzyLevel := FuzzyLevel.Like, values := g.opts.Sources,
         inTrash := inTrash, joiner := Joiner.Or }] }
  listMatchesLoop g (g.findMatches mq) 0

/-- The drain loop of `listSharedPerPath` (`src/list.go` lines 266-300):
a non-nil error returns the key-values accumulated so far together with
the error; a `nil` shared remote is skipped; each delivered shared remote
is paired with the normalized parent path of the requested path. -/
def listSharedLoop (g : Commands) (relToRootPath : String) :
    List (FetchEvent RNode) → List keyValue × Bool
  | [] => ([], false)
  | .errEv :: _ => ([], true)
  | .nilEv :: rest => listSharedLoop g relToRootPath rest
  | .fileEv s :: rest =>
    let parentPath := g.parentPather relToRootPath
    let parentPath := if remoteRootLike parentPath then "" else parentPath
    let parentPath := if rootLike parentPath then "" else parentPath
    let s := if remoteRootLike s.file.Name then s.setName "" else s
    let (kvList, e) := listSharedLoop g relToRootPath rest
    ({ key := parentPath, value := s } :: kvList, e)

/-- From `src/list.go` (`(*Commands).listSharedPerPath`): drain the shared
listing for one path. -/
def Commands.listSharedPerPath (g : Commands) (relToRootPath : String) :
    List keyValue × Bool :=
  listSharedLoop g relToRootPath (g.findByPathShared relToRootPath)

/-- From `src/list.go` (`(*Commands).List`): resolve every source locator
(phase one, no traversal), then traverse each resolved root.  A lookup
error other than not-found is fatal for the whole invocation; not-found
roots are warned about and skipped. -/
def Commands.List (g : Commands) (byId : Bool) : ListRes :=
  let mq := createMatchQuery g.opts true
  match resolveSources g byId g.opts.Sources with
  | .error warns => { fatal := true, warnings := warns, events := [] }
  | .ok (kvList, warns) =>
    { fatal := false, warnings := warns, events := (traverseKvs g mq kvList 0).1 }

/-! Helper lemmas. -/

theorem foldl_append_map (f : String → String) (l : List String) (init : List String) :
    l.foldl (fun acc x => acc ++ [f x]) init = init ++ l.map f := by
  induction l generalizing init with
  | nil => simp
  | cons x xs ih => simp [ih]

theorem foldl_append_flatMap (f : String → List String) (l : List String)
    (init : List String) :
    l.foldl (fun acc x => acc ++ f x) init = init ++ l.flatMap f := by
  induction l generalizing init with
  | nil => simp
  | cons x xs ih => simp [ih]

/-! Sample data used by counterexamples and witnesses. -/

/-- Sample options whose meta map declares one exact title. -/
def optsEx : Options :=
  { Depth := 1, TypeMask := 0, Hidden := false, InTrash := false, Path := "",
    Sources := [], Meta := some [(ExactTitleKey, ["report.csv"])],
    PageSize := 100, canPrompt := true }

/-- Sample directory entry. -/
def fileDirEx : File :=
  { Id := "d1", Name := "sub", IsDir := true, Shared := false, Size := 0,
    ModTime := "t0", Version := 1, OwnerNames := [], UserPermission := none }

/-- Sample non-directory entry. -/
def fileRegEx : File :=
  { Id := "f1", Name := "notes.txt", IsDir := false, Shared := false, Size := 3,
    ModTime := "t1", Version := 1, OwnerNames := [], UserPermission := none }

/-! Claim C2. -/

/-- Claim C2, counterexample: with `exactMatch = false` and an `exact-title`
filter declared, the produced title clause still uses exact (`Is`)
matching, not fuzzy (`Like`) matching — the `exactMatch` parameter of
`createMatchQuery` is ignored by its body. -/
theorem C2_counterexample :
    (createMatchQuery optsEx false).titleSearches =
      [{ fuzzyLevel := FuzzyLevel.Is, values := ["report.csv"], inTrash := false,
         joiner := Joiner.Or }] ∧
    FuzzyLevel.Is ≠ FuzzyLevel.Like := by
  constructor
  · rfl
  · decide

/-- Claim C2, amended: the match-predicate builder's `exactMatch` flag is
ignored: the result is the same for both flag values, and every produced
title clause uses exact (`Is`) matching regardless of the flag. -/
theorem C2_exactMatch_ignored (opts : Options) (exactMatch : Bool) :
    createMatchQuery opts exactMatch = createMatchQuery opts true ∧
    ((createMatchQuery opts exactMatch).titleSearches.all
      (fun p => p.fuzzyLevel == FuzzyLevel.Is)) = true := by
  refine ⟨rfl, ?_⟩
  unfold createMatchQuery
  cases hm : opts.Meta with
  | none => simp
  | some meta =>
    cases h1 : metaLookup meta SkipMimeKeyKey <;>
    cases h2 : metaLookup meta MatchMimeKeyKey <;>
    cases h3 : metaLookup meta ExactTitleKey <;>
    cases h4 : metaLookup meta ExactOwnerKey <;>
    cases h5 : metaLookup meta MatchOwnerKey <;>
    cases h6 : metaLookup meta NotOwnerKey <;>
    simp [h1, h2, h3, h4, h5, h6]

/-! Claim C5. -/

/-- Claim C5: the new display-parent path is the separator-join of parent
and entry name, except that when both are root-like the parent is kept;
in that case the result is still root-like (never a duplicated separator)
and the normalization is idempotent. -/
theorem C5_newParent_normalization (parent name : String) :
    (rootLike parent = true → rootLike name = true →
      newParent parent name = parent ∧
      rootLike (newParent parent name) = true ∧
      newParent (newParent parent name) name = newParent parent name) ∧
    ((rootLike parent && rootLike name) = false →
      newParent parent name = sepJoin "/" [parent, name]) := by
  constructor
  · intro hp hn
    have he : newParent parent name = parent := by simp [newParent, hp, hn]
    refine ⟨he, ?_, ?_⟩
    · rw [he]; exact hp
    · rw [he, he]
  · intro h
    simp [newParent, h]

/-- Claim C5, witness: at parent `/` and root-like name the join is skipped
and the parent representation is preserved. -/
theorem C5_newParent_normalization_witness :
    newParent "/" "" = "/" ∧ rootLike (newParent "/" "") = true ∧
    newParent (newParent "/" "") "" = newParent "/" "" :=
  (C5_newParent_normalization "/" "").1 (by decide) (by decide)

/-! Claim C6. -/

/-- Claim C6: sort-key extraction is the pure function of the options that
comma-splits each declared sort-key value, trims each fragment, and
returns the fragments in order; a nil options value, an absent key or an
empty value-list all yield the empty sort-key list. -/
theorem C6_sorters_extraction (opts : Option Options) :
    sorters opts = sortersSpec opts ∧
    sorters none = ([] : List String) ∧
    (∀ (o : Options), o.Meta = none → sorters (some o) = []) ∧
    (∀ (o : Options) (meta : MetaMap), o.Meta = some meta →
      metaLookup meta SortKey = none → sorters (some o) = []) ∧
    (∀ (o : Options) (meta : MetaMap), o.Meta = some meta →
      metaLookup meta SortKey = some [] → sorters (some o) = []) := by
  refine ⟨?_, rfl, ?_, ?_, ?_⟩
  · cases opts with
    | none => rfl
    | some o =>
      cases hm : o.Meta with
      | none => simp [sorters, sortersSpec, hm]
      | some meta =>
        cases hk : metaLookup meta SortKey with
        | none => simp [sorters, sortersSpec, hm, hk]
        | some retr =>
          simp [sorters, sortersSpec, hm, hk, foldl_append_map, foldl_append_flatMap]
  · intro o h
    simp [sorters, h]
  · intro o meta hm hk
    simp [sorters, hm, hk]
  · intro o meta hm hk
    simp [sorters, hm, hk]

/-- Claim C6, witness: concrete evaluations — a declared value is split,
trimmed and ordered; an absent key yields no sort keys. -/
theorem C6_sorters_extraction_witness :
    sorters (some { optsEx with Meta := some [(SortKey, [" name , size "])] }) =
      sortersSpec (some { optsEx with Meta := some [(SortKey, [" name , size "])] }) ∧
    sorters (some { optsEx with Meta := none }) = [] := by
  constructor
  · exact (C6_sorters_extraction (some { optsEx with Meta := some [(SortKey, [" name , size "])] })).1
  · exact (C6_sorters_extraction (some { optsEx with Meta := none })).2.2.1 _ rfl

/-! Claim C7. -/

/-- Claim C7, counterexample: with the non-folders-only mask mode active
(the mode `breadthFirst` reads for its render suppression), the rendered
list of the partition step still contains the non-directory entry and
omits the directory entry — the mode suppresses rendering of directories,
not of non-directories as the claim states. -/
theorem C7_counterexample :
    nonFolderExplicitly NonFolder = true ∧
    fileRegEx.IsDir = false ∧
    fileDirEx.IsDir = true ∧
    (partitionRender (nonFolderExplicitly NonFolder)
      [RNode.node fileDirEx [], RNode.node fileRegEx []]).2 = [fileRegEx] ∧
    (partitionRender (nonFolderExplicitly NonFolder)
      [RNode.node fileDirEx [], RNode.node fileRegEx []]).1 = [RNode.node fileDirEx []] := by
  refine ⟨by decide, rfl, rfl, ?_, ?_⟩ <;> rfl

/-- Claim C7, amended: in the partition-and-render step every non-directory
entry is always rendered; the non-folders-only mask mode (`onlyFiles`)
suppresses rendering of directory entries only, while all directory
entries — rendered or not — are collected into the children list in the
collection's (post-sort) order. -/
theorem C7_partition_render (onlyFiles : Bool) (collector : List RNode) :
    (partitionRender onlyFiles collector).1 =
      List.filter (fun c => c.file.IsDir) collector ∧
    (partitionRender onlyFiles collector).2 =
      (List.filter (fun c => !(onlyFiles && c.file.IsDir)) collector).map RNode.file :=
  ⟨partitionRender_children_eq onlyFiles collector,
   partitionRender_rendered_eq onlyFiles collector⟩

/-! Induction machinery for the traversal engine.  `breadthFirst` is defined
by well-founded recursion, so facts about it are proved by strong
induction on the size of the visited node, simultaneously with the
matching fact about `goChildren`. -/

theorem children_sizeOf_lt (g : Commands) (srt : List String) (onlyFiles : Bool)
    (f : File) (evs : List (FetchEvent RNode)) (collector0 : List RNode)
    (hd : drain g.opts.Hidden evs = .ok collector0) :
    sizeOf (partitionRender onlyFiles
      (if srt.length ≥ 1 then g.sort collector0 srt else collector0)).1 <
      sizeOf (RNode.node f evs) := by
  have h2 : sizeOf (if srt.length ≥ 1 then g.sort collector0 srt else collector0) =
      sizeOf collector0 := by
    split
    · exact sort_sizeOf g collector0 srt
    · rfl
  have h1 := partitionRender_children_sizeOf_le onlyFiles
    (if srt.length ≥ 1 then g.sort collector0 srt else collector0)
  have h3 := drain_sizeOf_le g.opts.Hidden evs collector0 hd
  simp only [RNode.node.sizeOf_spec]
  omega

/-! Branch equations for `breadthFirst` (well-founded definitions do not
reduce definitionally, so each source branch gets an explicit equation). -/

/-- The presentation record `breadthFirst` builds before the leaf test. -/
def baseAttr (g : Commands) (travSt : traversalSt) : attr :=
  { minimal := isMinimal g.opts.TypeMask
    diskUsageOnly := diskUsageOnly g.opts.TypeMask
    mask := travSt.mask
    parent := if travSt.headPath = "/" then "" else travSt.headPath }

theorem breadthFirst_nondir (g : Commands) (travSt : traversalSt) (level pidx : Nat)
    (f : File) (evs : List (FetchEvent RNode))
    (hnode : travSt.node = RNode.node f evs) (hdir : f.IsDir = false) :
    breadthFirst g travSt level pidx =
      ⟨true, [Event.render f (baseAttr g travSt) level], pidx⟩ := by
  rw [breadthFirst]
  split
  rename_i f' evs' hn
  rw [hnode] at hn
  injection hn with h1 h2
  subst h1
  simp [hdir, baseAttr]

theorem breadthFirst_depth0 (g : Commands) (travSt : traversalSt) (level pidx : Nat)
    (f : File) (evs : List (FetchEvent RNode))
    (hnode : travSt.node = RNode.node f evs) (hdir : f.IsDir = true)
    (hdep : travSt.depth = 0) :
    breadthFirst g travSt level pidx = ⟨true, [], pidx⟩ := by
  rw [breadthFirst]
  split
  rename_i f' evs' hn
  rw [hnode] at hn
  injection hn with h1 h2
  subst h1
  simp [hdir, hdep]

theorem breadthFirst_drain_error (g : Commands) (travSt : traversalSt) (level pidx : Nat)
    (f : File) (evs : List (FetchEvent RNode))
    (hnode : travSt.node = RNode.node f evs) (hdir : f.IsDir = true)
    (hdep : travSt.depth ≠ 0) (hdrain : drain g.opts.Hidden evs = .error ()) :
    breadthFirst g travSt level pidx = ⟨false, [], pidx⟩ := by
  rw [breadthFirst]
  split
  rename_i f' evs' hn
  rw [hnode] at hn
  injection hn with h1 h2
  subst h1
  subst h2
  rw [if_neg (by simp [hdir])]
  rw [if_neg hdep]
  set d' := if travSt.depth > 0 then travSt.depth - 1 else travSt.depth with hd'
  split
  · rfl
  · rename_i c0 hdX
    rw [hdrain] at hdX
    exact Except.noConfusion hdX

theorem breadthFirst_dir_step (g : Commands) (travSt : traversalSt) (level pidx : Nat)
    (f : File) (evs : List (FetchEvent RNode)) (collector0 : List RNode)
    (hnode : travSt.node = RNode.node f evs) (hdir : f.IsDir = true)
    (hdep : travSt.depth ≠ 0) (hdrain : drain g.opts.Hidden evs = .ok collector0) :
    breadthFirst g travSt level pidx =
      afterCollect g travSt
        { baseAttr g travSt with
            parent := newParent (if travSt.headPath = "/" then "" else travSt.headPath) f.Name }
        (if travSt.depth > 0 then travSt.depth - 1 else travSt.depth)
        (if travSt.sorters.length ≥ 1 then g.sort collector0 travSt.sorters else collector0)
        level pidx := by
  rw [breadthFirst]
  split
  rename_i f' evs' hn
  rw [hnode] at hn
  injection hn with h1 h2
  subst h1
  subst h2
  rw [if_neg (by simp [hdir])]
  rw [if_neg hdep]
  set d' := if travSt.depth > 0 then travSt.depth - 1 else travSt.depth with hd'
  split
  · rename_i a hdX
    rw [hdrain] at hdX
    exact Except.noConfusion hdX
  · rename_i c0 hdX
    rw [hdrain] at hdX
    injection hdX with h3
    subst h3
    rfl

/-! Every event a traversal call produces carries a level at or below the
call's own level (children are deeper, never shallower).  Proved by strong
induction on node size, simultaneously for the three mutual functions. -/

theorem level_ge_aux (n : Nat) :
    (∀ (g : Commands) (travSt : traversalSt) (hpth : String) (d : Int)
      (children : List RNode) (level pidx : Nat), sizeOf children ≤ n →
      ∀ ev ∈ (goChildren g travSt hpth d children level pidx).events, level ≤ ev.level) ∧
    (∀ (g : Commands) (travSt : traversalSt) (opt : attr) (d : Int)
      (collector : List RNode) (level pidx : Nat), sizeOf collector ≤ n →
      ∀ ev ∈ (afterCollect g travSt opt d collector level pidx).events, level ≤ ev.level) ∧
    (∀ (g : Commands) (travSt : traversalSt) (level pidx : Nat),
      sizeOf travSt.node ≤ n →
      ∀ ev ∈ (breadthFirst g travSt level pidx).events, level ≤ ev.level) := by
  induction n using Nat.strong_induction_on with
  | _ n ih =>
    have hgo : ∀ (g : Commands) (travSt : traversalSt) (hpth : String) (d : Int)
        (children : List RNode) (level pidx : Nat), sizeOf children ≤ n →
        ∀ ev ∈ (goChildren g travSt hpth d children level pidx).events, level ≤ ev.level := by
      intro g travSt hpth d children level pidx hsz ev hev
      match children with
      | [] =>
        rw [goChildren] at hev
        simp at hev
      | c :: rest =>
        rw [goChildren] at hev
        simp only [List.cons.sizeOf_spec] at hsz
        have hc : sizeOf c < n := by omega
        have hrest : sizeOf rest < n := by omega
        split at hev
        · simp only [List.mem_append] at hev
          rcases hev with hev | hev
          · exact (ih _ hc).2.2 g _ level pidx (Nat.le_refl _) ev hev
          · exact (ih _ hrest).1 g travSt hpth d rest level _ (Nat.le_refl _) ev hev
        · exact (ih _ hc).2.2 g _ level pidx (Nat.le_refl _) ev hev
    have hafter : ∀ (g : Commands) (travSt : traversalSt) (opt : attr) (d : Int)
        (collector : List RNode) (level pidx : Nat), sizeOf collector ≤ n →
        ∀ ev ∈ (afterCollect g travSt opt d collector level pidx).events, level ≤ ev.level := by
      intro g travSt opt d collector level pidx hsz ev hev
      have hch : sizeOf (partitionRender (nonFolderExplicitly g.opts.TypeMask) collector).1 ≤ n :=
        Nat.le_trans (partitionRender_children_sizeOf_le _ _) hsz
      rw [afterCollect] at hev
      simp only [] at hev
      split at hev
      · split at hev
        · split at hev
          · -- prompt declined
            simp only [List.mem_append, List.mem_map, List.mem_singleton] at hev
            rcases hev with (⟨fl, _, rfl⟩ | rfl)
            · exact Nat.le_succ_of_le (Nat.le_refl _)
            · exact Nat.le_refl _
          · -- prompt accepted, children traversed
            simp only [List.mem_append, List.mem_map, List.mem_singleton] at hev
            rcases hev with ((⟨fl, _, rfl⟩ | rfl) | hev)
            · exact Nat.le_succ_of_le (Nat.le_refl _)
            · exact Nat.le_refl _
            · have := hgo g travSt opt.parent d _ (level + 1) _ hch ev hev
              omega
        · -- gate skipped, children traversed
          simp only [List.mem_append, List.mem_map] at hev
          rcases hev with (⟨fl, _, rfl⟩ | hev)
          · exact Nat.le_succ_of_le (Nat.le_refl _)
          · have := hgo g travSt opt.parent d _ (level + 1) _ hch ev hev
            omega
      · -- trash mode: renders only
        simp only [List.mem_map] at hev
        rcases hev with ⟨fl, _, rfl⟩
        exact Nat.le_succ_of_le (Nat.le_refl _)
    refine ⟨hgo, hafter, ?_⟩
    intro g travSt level pidx hsz ev hev
    rcases hnode : travSt.node with ⟨f, evs⟩
    rw [hnode] at hsz
    simp only [RNode.node.sizeOf_spec] at hsz
    by_cases hdir : f.IsDir = false
    · rw [breadthFirst_nondir g travSt level pidx f evs hnode hdir] at hev
      simp only [List.mem_singleton] at hev
      subst hev
      exact Nat.le_refl _
    · have hdir' : f.IsDir = true := by
        cases h : f.IsDir
        · exact absurd h hdir
        · rfl
      by_cases hdep : travSt.depth = 0
      · rw [breadthFirst_depth0 g travSt level pidx f evs hnode hdir' hdep] at hev
        simp at hev
      · cases hdrain : drain g.opts.Hidden evs with
        | error e =>
          rw [breadthFirst_drain_error g travSt level pidx f evs hnode hdir' hdep
            (by cases e; exact hdrain)] at hev
          simp at hev
        | ok collector0 =>
          rw [breadthFirst_dir_step g travSt level pidx f evs collector0 hnode hdir' hdep
            hdrain] at hev
          have hsort : sizeOf (if travSt.sorters.length ≥ 1 then
              g.sort collector0 travSt.sorters else collector0) = sizeOf collector0 := by
            split
            · exact sort_sizeOf g collector0 travSt.sorters
            · rfl
          have hc0 := drain_sizeOf_le g.opts.Hidden evs collector0 hdrain
          exact hafter g travSt _ _ _ level pidx (by omega) ev hev

/-- Packaged form: every event of a `breadthFirst` call at `level` has level
at least `level`. -/
theorem breadthFirst_level_ge (g : Commands) (travSt : traversalSt) (level pidx : Nat) :
    ∀ ev ∈ (breadthFirst g travSt level pidx).events, level ≤ ev.level :=
  (level_ge_aux (sizeOf travSt.node)).2.2 g travSt level pidx (Nat.le_refl _)

/-! Depth bound: with a nonnegative remaining depth `d`, no rendered entry
lies more than `d` levels below the call's own level. -/

theorem render_le_aux (n : Nat) :
    (∀ (g : Commands) (travSt : traversalSt) (hpth : String) (d : Int)
      (children : List RNode) (level pidx : Nat), sizeOf children ≤ n → 0 ≤ d →
      ∀ fl o lv, Event.render fl o lv ∈ (goChildren g travSt hpth d children level pidx).events →
        lv ≤ level + d.toNat) ∧
    (∀ (g : Commands) (travSt : traversalSt) (opt : attr) (d : Int)
      (collector : List RNode) (level pidx : Nat), sizeOf collector ≤ n → 0 ≤ d →
      ∀ fl o lv, Event.render fl o lv ∈ (afterCollect g travSt opt d collector level pidx).events →
        lv ≤ level + 1 + d.toNat) ∧
    (∀ (g : Commands) (travSt : traversalSt) (level pidx : Nat),
      sizeOf travSt.node ≤ n → 0 ≤ travSt.depth →
      ∀ fl o lv, Event.render fl o lv ∈ (breadthFirst g travSt level pidx).events →
        lv ≤ level + travSt.depth.toNat) := by
  induction n using Nat.strong_induction_on with
  | _ n ih =>
    have hgo : ∀ (g : Commands) (travSt : traversalSt) (hpth : String) (d : Int)
        (children : List RNode) (level pidx : Nat), sizeOf children ≤ n → 0 ≤ d →
        ∀ fl o lv, Event.render fl o lv ∈ (goChildren g travSt hpth d children level pidx).events →
          lv ≤ level + d.toNat := by
      intro g travSt hpth d children level pidx hsz hd fl o lv hev
      match children with
      | [] =>
        rw [goChildren] at hev
        simp at hev
      | c :: rest =>
        rw [goChildren] at hev
        simp only [List.cons.sizeOf_spec] at hsz
        have hc : sizeOf c < n := by omega
        have hrest : sizeOf rest < n := by omega
        split at hev
        · simp only [List.mem_append] at hev
          rcases hev with hev | hev
          · exact (ih _ hc).2.2 g _ level pidx (Nat.le_refl _) hd fl o lv hev
          · exact (ih _ hrest).1 g travSt hpth d rest level _ (Nat.le_refl _) hd fl o lv hev
        · exact (ih _ hc).2.2 g _ level pidx (Nat.le_refl _) hd fl o lv hev
    have hafter : ∀ (g : Commands) (travSt : traversalSt) (opt : attr) (d : Int)
        (collector : List RNode) (level pidx : Nat), sizeOf collector ≤ n → 0 ≤ d →
        ∀ fl o lv, Event.render fl o lv ∈ (afterCollect g travSt opt d collector level pidx).events →
          lv ≤ level + 1 + d.toNat := by
      intro g travSt opt d collector level pidx hsz hd fl o lv hev
      have hch : sizeOf (partitionRender (nonFolderExplicitly g.opts.TypeMask) collector).1 ≤ n :=
        Nat.le_trans (partitionRender_children_sizeOf_le _ _) hsz
      rw [afterCollect] at hev
      simp only [] at hev
      split at hev
      · split at hev
        · split at hev
          · simp only [List.mem_append, List.mem_map, List.mem_singleton] at hev
            rcases hev with (⟨x, _, heq⟩ | heq)
            · injection heq with h1 h2 h3
              omega
            · exact Event.noConfusion heq
          · simp only [List.mem_append, List.mem_map, List.mem_singleton] at hev
            rcases hev with ((⟨x, _, heq⟩ | heq) | hev)
            · injection heq with h1 h2 h3
              omega
            · exact Event.noConfusion heq
            · have := hgo g travSt opt.parent d _ (level + 1) _ hch hd fl o lv hev
              omega
        · simp only [List.mem_append, List.mem_map] at hev
          rcases hev with (⟨x, _, heq⟩ | hev)
          · injection heq with h1 h2 h3
            omega
          · have := hgo g travSt opt.parent d _ (level + 1) _ hch hd fl o lv hev
            omega
      · simp only [List.mem_map] at hev
        rcases hev with ⟨x, _, heq⟩
        injection heq with h1 h2 h3
        omega
    refine ⟨hgo, hafter, ?_⟩
    intro g travSt level pidx hsz hd fl o lv hev
    rcases hnode : travSt.node with ⟨f, evs⟩
    rw [hnode] at hsz
    simp only [RNode.node.sizeOf_spec] at hsz
    by_cases hdir : f.IsDir = false
    · rw [breadthFirst_nondir g travSt level pidx f evs hnode hdir] at hev
      simp only [List.mem_singleton] at hev
      injection hev with h1 h2 h3
      omega
    · have hdir' : f.IsDir = true := by
        cases h : f.IsDir
        · exact absurd h hdir
        · rfl
      by_cases hdep : travSt.depth = 0
      · rw [breadthFirst_depth0 g travSt level pidx f evs hnode hdir' hdep] at hev
        simp at hev
      · cases hdrain : drain g.opts.Hidden evs with
        | error e =>
          rw [breadthFirst_drain_error g travSt level pidx f evs hnode hdir' hdep
            (by cases e; exact hdrain)] at hev
          simp at hev
        | ok collector0 =>
          rw [breadthFirst_dir_step g travSt level pidx f evs collector0 hnode hdir' hdep
            hdrain] at hev
          have hsort : sizeOf (if travSt.sorters.length ≥ 1 then
              g.sort collector0 travSt.sorters else collector0) = sizeOf collector0 := by
            split
            · exact sort_sizeOf g collector0 travSt.sorters
            · rfl
          have hc0 := drain_sizeOf_le g.opts.Hidden evs collector0 hdrain
          have hd' : (0 : Int) ≤ (if travSt.depth > 0 then travSt.depth - 1 else travSt.depth) := by
            split <;> omega
          have := hafter g travSt _ _ _ level pidx (by omega) hd' fl o lv hev
          have htn : (if travSt.depth > 0 then travSt.depth - 1 else travSt.depth).toNat + 1 =
              travSt.depth.toNat := by
            split <;> omega
          omega

/-- Packaged form of the depth bound for `breadthFirst`. -/
theorem breadthFirst_render_le (g : Commands) (travSt : traversalSt) (level pidx : Nat)
    (hd : 0 ≤ travSt.depth) :
    ∀ fl o lv, Event.render fl o lv ∈ (breadthFirst g travSt level pidx).events →
      lv ≤ level + travSt.depth.toNat :=
  (render_le_aux (sizeOf travSt.node)).2.2 g travSt level pidx (Nat.le_refl _) hd

/-! Branch equations for `afterCollect`. -/

/-- The render events a directory level produces, in collector order. -/
def renderEventsOf (g : Commands) (opt : attr) (collector : List RNode) (level : Nat) :
    List Event :=
  ((partitionRender (nonFolderExplicitly g.opts.TypeMask) collector).2).map
    (fun fl => Event.render fl opt (level + 1))

/-- The continuation-gate condition of `afterCollect`
(`canPage && canPrompt` in the source). -/
def gateCond (g : Commands) (travSt : traversalSt) (depth : Int)
    (collector : List RNode) : Bool :=
  decide (depth ≠ 0) &&
    decide ((partitionRender (nonFolderExplicitly g.opts.TypeMask) collector).1.length > 0) &&
    (!travSt.explicitNoPrompt && g.opts.canPrompt)

theorem afterCollect_trash (g : Commands) (travSt : traversalSt) (opt : attr)
    (depth : Int) (collector : List RNode) (level pidx : Nat)
    (ht : (!travSt.inTrash && !g.opts.InTrash) = false) :
    afterCollect g travSt opt depth collector level pidx =
      ⟨decide (((partitionRender (nonFolderExplicitly g.opts.TypeMask) collector).2).length ≥ 1),
       renderEventsOf g opt collector level, pidx⟩ := by
  rw [afterCollect]
  simp only [renderEventsOf, ht, Bool.false_eq_true, if_false]

theorem afterCollect_gate_skip (g : Commands) (travSt : traversalSt) (opt : attr)
    (depth : Int) (collector : List RNode) (level pidx : Nat)
    (ht : (!travSt.inTrash && !g.opts.InTrash) = true)
    (hg : gateCond g travSt depth collector = false) :
    afterCollect g travSt opt depth collector level pidx =
      (let r := goChildren g travSt opt.parent depth
          (partitionRender (nonFolderExplicitly g.opts.TypeMask) collector).1 (level + 1) pidx
       ⟨r.ok, renderEventsOf g opt collector level ++ r.events, r.promptIdx⟩) := by
  rw [afterCollect]
  simp only [gateCond] at hg
  simp only [renderEventsOf, ht, if_true, hg, Bool.false_eq_true, if_false]

theorem afterCollect_prompt_decline (g : Commands) (travSt : traversalSt) (opt : attr)
    (depth : Int) (collector : List RNode) (level pidx : Nat)
    (ht : (!travSt.inTrash && !g.opts.InTrash) = true)
    (hg : gateCond g travSt depth collector = true)
    (hans : g.nextPage pidx = false) :
    afterCollect g travSt opt depth collector level pidx =
      ⟨false, renderEventsOf g opt collector level ++ [Event.prompt level false], pidx + 1⟩ := by
  rw [afterCollect]
  simp only [gateCond] at hg
  simp only [renderEventsOf, ht, if_true, hg, hans, Bool.not_false, Bool.false_eq_true, if_false]

theorem afterCollect_prompt_accept (g : Commands) (travSt : traversalSt) (opt : attr)
    (depth : Int) (collector : List RNode) (level pidx : Nat)
    (ht : (!travSt.inTrash && !g.opts.InTrash) = true)
    (hg : gateCond g travSt depth collector = true)
    (hans : g.nextPage pidx = true) :
    afterCollect g travSt opt depth collector level pidx =
      (let r := goChildren g travSt opt.parent depth
          (partitionRender (nonFolderExplicitly g.opts.TypeMask) collector).1
          (level + 1) (pidx + 1)
       ⟨r.ok, renderEventsOf g opt collector level ++ [Event.prompt level true] ++ r.events,
        r.promptIdx⟩) := by
  rw [afterCollect]
  simp only [gateCond] at hg
  simp only [renderEventsOf, ht, if_true, hg, hans, Bool.not_true, Bool.false_eq_true, if_false]

/-! Claim C1. -/

/-- Claim C1: the depth gate of the traversal.  For a directory entry:
remaining depth zero stops before descending and reports the branch
successful with nothing produced; otherwise the depth passed to the next
level is decremented when strictly positive and kept (unbounded) when
negative, as the step equation shows; a non-directory is rendered at the
call's own level; and consequently for every depth `d ≥ 0` no entry is
rendered more than `d` directory-levels below the root of the call. -/
theorem C1_depth_gate (g : Commands) (travSt : traversalSt) (level pidx : Nat) :
    (∀ (f : File) (evs : List (FetchEvent RNode)), travSt.node = RNode.node f evs →
      f.IsDir = true → travSt.depth = 0 →
      breadthFirst g travSt level pidx = ⟨true, [], pidx⟩) ∧
    (∀ (f : File) (evs : List (FetchEvent RNode)) (collector0 : List RNode),
      travSt.node = RNode.node f evs → f.IsDir = true → travSt.depth ≠ 0 →
      drain g.opts.Hidden evs = .ok collector0 →
      breadthFirst g travSt level pidx =
        afterCollect g travSt
          { baseAttr g travSt with
              parent := newParent (if travSt.headPath = "/" then "" else travSt.headPath) f.Name }
          (if travSt.depth > 0 then travSt.depth - 1 else travSt.depth)
          (if travSt.sorters.length ≥ 1 then g.sort collector0 travSt.sorters else collector0)
          level pidx) ∧
    (0 ≤ travSt.depth →
      ∀ fl o lv, Event.render fl o lv ∈ (breadthFirst g travSt level pidx).events →
        lv ≤ level + travSt.depth.toNat) := by
  refine ⟨?_, ?_, ?_⟩
  · intro f evs hnode hdir hdep
    exact breadthFirst_depth0 g travSt level pidx f evs hnode hdir hdep
  · intro f evs collector0 hnode hdir hdep hdrain
    exact breadthFirst_dir_step g travSt level pidx f evs collector0 hnode hdir hdep hdrain
  · intro hd
    exact breadthFirst_render_le g travSt level pidx hd

/-- Sample command context for witnesses: no prompting obstacles, trivial
external collaborators. -/
def gEx : Commands :=
  { opts := { Depth := 1, TypeMask := 0, Hidden := false, InTrash := false, Path := "",
              Sources := [], Meta := none, PageSize := 100, canPrompt := true }
    resolveByPath := fun _ => LookupRes.notFound
    resolveById := fun _ => LookupRes.notFound
    parentPather := fun s => s
    findMatches := fun _ => []
    findByPathShared := fun _ => []
    nextPage := fun _ => true }

/-- Sample traversal state: a directory root with one file child event and
depth `0`. -/
def travStEx : traversalSt :=
  { node := RNode.node fileDirEx [FetchEvent.fileEv (RNode.node fileRegEx [])]
    headPath := ""
    depth := 0
    mask := 0
    inTrash := false }

/-- Claim C1, witness: at depth zero the directory branch stops before
descending, produces nothing, and reports success. -/
theorem C1_depth_gate_witness :
    breadthFirst gEx travStEx 0 0 = ⟨true, [], 0⟩ :=
  (C1_depth_gate gEx travStEx 0 0).1 fileDirEx
    [FetchEvent.fileEv (RNode.node fileRegEx [])] rfl rfl rfl

/-! Claim C8. -/

/-- Claim C8: a directory level that is reached with depth remaining but is
not recursed into because the traversal is in trash mode reports success
exactly when at least one entry was rendered at that level (its events are
exactly that level's renders, and the returned flag is their non-emptiness). -/
theorem C8_trash_terminal (g : Commands) (travSt : traversalSt) (level pidx : Nat)
    (f : File) (evs : List (FetchEvent RNode)) (collector0 : List RNode)
    (hnode : travSt.node = RNode.node f evs) (hdir : f.IsDir = true)
    (hdep : travSt.depth ≠ 0) (hdrain : drain g.opts.Hidden evs = .ok collector0)
    (htrash : (travSt.inTrash || g.opts.InTrash) = true) :
    ((breadthFirst g travSt level pidx).ok = true ↔
      (breadthFirst g travSt level pidx).events ≠ []) ∧
    (breadthFirst g travSt level pidx).events =
      renderEventsOf g
        { baseAttr g travSt with
            parent := newParent (if travSt.headPath = "/" then "" else travSt.headPath) f.Name }
        (if travSt.sorters.length ≥ 1 then g.sort collector0 travSt.sorters else collector0)
        level ∧
    (breadthFirst g travSt level pidx).promptIdx = pidx := by
  have ht : (!travSt.inTrash && !g.opts.InTrash) = false := by
    cases h1 : travSt.inTrash <;> cases h2 : g.opts.InTrash <;>
      simp [h1, h2] <;> simp [h1, h2] at htrash
  rw [breadthFirst_dir_step g travSt level pidx f evs collector0 hnode hdir hdep hdrain]
  rw [afterCollect_trash g travSt _ _ _ level pidx ht]
  refine ⟨?_, rfl, rfl⟩
  simp only [renderEventsOf, decide_eq_true_eq, ne_eq, List.map_eq_nil_iff]
  constructor
  · intro h1 h2
    rw [h2] at h1
    simp at h1
  · intro h1
    have : (partitionRender (nonFolderExplicitly g.opts.TypeMask)
        (if travSt.sorters.length ≥ 1 then g.sort collector0 travSt.sorters
          else collector0)).2 ≠ [] := h1
    cases hp : (partitionRender (nonFolderExplicitly g.opts.TypeMask)
        (if travSt.sorters.length ≥ 1 then g.sort collector0 travSt.sorters
          else collector0)).2 with
    | nil => exact absurd hp this
    | cons a l => simp [hp]

/-- Sample trash-mode traversal state with one file child event. -/
def travStTrash1 : traversalSt :=
  { node := RNode.node fileDirEx [FetchEvent.fileEv (RNode.node fileRegEx [])]
    headPath := ""
    depth := 1
    mask := 0
    inTrash := true }

/-- Sample trash-mode traversal state with no child events. -/
def travStTrash0 : traversalSt :=
  { node := RNode.node fileDirEx []
    headPath := ""
    depth := 1
    mask := 0
    inTrash := true }

/-- Claim C8, witness: a trash-mode directory level with one rendered child
reports success, and one with no child events reports failure. -/
theorem C8_trash_terminal_witness :
    (breadthFirst gEx travStTrash1 0 0).ok = true ∧
    (breadthFirst gEx travStTrash0 0 0).ok = false := by
  constructor
  · have h := C8_trash_terminal gEx travStTrash1 0 0
      fileDirEx [FetchEvent.fileEv (RNode.node fileRegEx [])] [RNode.node fileRegEx []]
      rfl rfl (by decide) rfl rfl
    apply h.1.mpr
    rw [h.2.1]
    simp [renderEventsOf, partitionRender, fileRegEx, gEx, nonFolderExplicitly, NonFolder,
      travStTrash1]
  · have h := C8_trash_terminal gEx travStTrash0 0 0
      fileDirEx [] [] rfl rfl (by decide) rfl rfl
    cases hok : (breadthFirst gEx travStTrash0 0 0).ok with
    | false => rfl
    | true =>
      have h2 := h.1.mp hok
      rw [h.2.1] at h2
      simp [renderEventsOf, partitionRender, travStTrash0] at h2

/-! Claim C3. -/

/-- Packaged level bound for the children loop. -/
theorem goChildren_level_ge (g : Commands) (travSt : traversalSt) (hpth : String)
    (d : Int) (children : List RNode) (level pidx : Nat) :
    ∀ ev ∈ (goChildren g travSt hpth d children level pidx).events, level ≤ ev.level :=
  (level_ge_aux (sizeOf children)).1 g travSt hpth d children level pidx (Nat.le_refl _)

theorem trash_bool_iff (a b : Bool) : (!a && !b) = true ↔ (a || b) = false := by
  cases a <;> cases b <;> simp

theorem gateCond_iff (g : Commands) (travSt : traversalSt) (d : Int) (col : List RNode) :
    gateCond g travSt d col = true ↔
      (d ≠ 0 ∧ (partitionRender (nonFolderExplicitly g.opts.TypeMask) col).1 ≠ [] ∧
        travSt.explicitNoPrompt = false ∧ g.opts.canPrompt = true) := by
  simp [gateCond, Bool.and_eq_true, decide_eq_true_eq, List.length_pos, Bool.not_eq_true',
    and_assoc]

theorem prompt_not_mem_renders (g : Commands) (opt : attr) (col : List RNode)
    (level lv : Nat) (a : Bool) :
    Event.prompt lv a ∉ renderEventsOf g opt col level := by
  simp [renderEventsOf, List.mem_map]

/-- Claim C3: at a directory level that passed the depth gate and whose page
drain succeeded, the continuation prompt is issued (a prompt event of this
level appears) exactly when: the traversal is not in trash mode, the
remaining (already decremented) depth is not exhausted, there is at least
one directory child, and prompting is enabled (neither the per-branch
no-prompt flag nor the global prompt setting disables it).  Moreover, when
the prompt is issued and the user declines, the call returns failure
immediately: only this level's renders and the declined prompt are
produced, and no child is recursed into. -/
theorem C3_prompt_gate (g : Commands) (travSt : traversalSt) (level pidx : Nat)
    (f : File) (evs : List (FetchEvent RNode)) (collector0 : List RNode)
    (depth2 : Int) (children : List RNode)
    (hnode : travSt.node = RNode.node f evs) (hdir : f.IsDir = true)
    (hdep : travSt.depth ≠ 0) (hdrain : drain g.opts.Hidden evs = .ok collector0)
    (hd2 : depth2 = if travSt.depth > 0 then travSt.depth - 1 else travSt.depth)
    (hch : children = (partitionRender (nonFolderExplicitly g.opts.TypeMask)
      (if travSt.sorters.length ≥ 1 then g.sort collector0 travSt.sorters
        else collector0)).1) :
    ((∃ a, Event.prompt level a ∈ (breadthFirst g travSt level pidx).events) ↔
      ((travSt.inTrash || g.opts.InTrash) = false ∧ depth2 ≠ 0 ∧ children ≠ [] ∧
        travSt.explicitNoPrompt = false ∧ g.opts.canPrompt = true)) ∧
    (((travSt.inTrash || g.opts.InTrash) = false ∧ depth2 ≠ 0 ∧ children ≠ [] ∧
        travSt.explicitNoPrompt = false ∧ g.opts.canPrompt = true) →
      g.nextPage pidx = false →
      breadthFirst g travSt level pidx =
        ⟨false,
          renderEventsOf g
            { baseAttr g travSt with
                parent :=
                  newParent (if travSt.headPath = "/" then "" else travSt.headPath) f.Name }
            (if travSt.sorters.length ≥ 1 then g.sort collector0 travSt.sorters
              else collector0) level ++ [Event.prompt level false],
          pidx + 1⟩) := by
  subst hd2
  subst hch
  rw [breadthFirst_dir_step g travSt level pidx f evs collector0 hnode hdir hdep hdrain]
  constructor
  · cases ht : (!travSt.inTrash && !g.opts.InTrash) with
    | false =>
      rw [afterCollect_trash _ _ _ _ _ _ _ ht]
      constructor
      · rintro ⟨a, ha⟩
        exact absurd ha (prompt_not_mem_renders _ _ _ _ _ _)
      · rintro ⟨htr, _⟩
        rw [← trash_bool_iff] at htr
        rw [htr] at ht
        exact Bool.noConfusion ht
    | true =>
      cases hg : gateCond g travSt
          (if travSt.depth > 0 then travSt.depth - 1 else travSt.depth)
          (if travSt.sorters.length ≥ 1 then g.sort collector0 travSt.sorters
            else collector0) with
      | false =>
        rw [afterCollect_gate_skip _ _ _ _ _ _ _ ht hg]
        simp only []
        constructor
        · rintro ⟨a, ha⟩
          simp only [List.mem_append] at ha
          rcases ha with ha | ha
          · exact absurd ha (prompt_not_mem_renders _ _ _ _ _ _)
          · have hle := goChildren_level_ge g travSt _ _ _ (level + 1) pidx _ ha
            simp [Event.level] at hle
        · rintro ⟨htr, hd2', hch', henp, hcp⟩
          have := (gateCond_iff g travSt _ _).mpr ⟨hd2', hch', henp, hcp⟩
          rw [this] at hg
          exact Bool.noConfusion hg
      | true =>
        have hside : (travSt.inTrash || g.opts.InTrash) = false ∧
            (if travSt.depth > 0 then travSt.depth - 1 else travSt.depth) ≠ 0 ∧
            (partitionRender (nonFolderExplicitly g.opts.TypeMask)
              (if travSt.sorters.length ≥ 1 then g.sort collector0 travSt.sorters
                else collector0)).1 ≠ [] ∧
            travSt.explicitNoPrompt = false ∧ g.opts.canPrompt = true := by
          have h1 := (trash_bool_iff travSt.inTrash g.opts.InTrash).mp ht
          have h2 := (gateCond_iff g travSt _ _).mp hg
          exact ⟨h1, h2.1, h2.2.1, h2.2.2.1, h2.2.2.2⟩
        cases hans : g.nextPage pidx with
        | false =>
          rw [afterCollect_prompt_decline _ _ _ _ _ _ _ ht hg hans]
          constructor
          · intro _
            exact hside
          · intro _
            exact ⟨false, by simp⟩
        | true =>
          rw [afterCollect_prompt_accept _ _ _ _ _ _ _ ht hg hans]
          simp only []
          constructor
          · intro _
            exact hside
          · intro _
            exact ⟨true, by simp⟩
  · rintro ⟨htr, hd2', hch', henp, hcp⟩ hans
    have ht : (!travSt.inTrash && !g.opts.InTrash) = true :=
      (trash_bool_iff travSt.inTrash g.opts.InTrash).mpr htr
    have hg : gateCond g travSt
        (if travSt.depth > 0 then travSt.depth - 1 else travSt.depth)
        (if travSt.sorters.length ≥ 1 then g.sort collector0 travSt.sorters
          else collector0) = true :=
      (gateCond_iff g travSt _ _).mpr ⟨hd2', hch', henp, hcp⟩
    rw [afterCollect_prompt_decline _ _ _ _ _ _ _ ht hg hans]

/-- Sample command context whose user declines every continuation prompt. -/
def gDecline : Commands :=
  { opts := { Depth := 2, TypeMask := 0, Hidden := false, InTrash := false, Path := "",
              Sources := [], Meta := none, PageSize := 100, canPrompt := true }
    resolveByPath := fun _ => LookupRes.notFound
    resolveById := fun _ => LookupRes.notFound
    parentPather := fun s => s
    findMatches := fun _ => []
    findByPathShared := fun _ => []
    nextPage := fun _ => false }

/-- Sample traversal state with one directory child and depth 2. -/
def travStPrompt : traversalSt :=
  { node := RNode.node fileDirEx [FetchEvent.fileEv (RNode.node fileDirEx [])]
    headPath := ""
    depth := 2
    mask := 0
    inTrash := false }

/-- Claim C3, witness: with a directory child present, depth remaining,
prompting enabled and the user declining, the branch fails immediately. -/
theorem C3_prompt_gate_witness :
    (breadthFirst gDecline travStPrompt 0 0).ok = false := by
  have h := (C3_prompt_gate gDecline travStPrompt 0 0 fileDirEx
      [FetchEvent.fileEv (RNode.node fileDirEx [])] [RNode.node fileDirEx []]
      1 [RNode.node fileDirEx []] rfl rfl (by decide) rfl (by decide) rfl).2
      ⟨rfl, by decide, by simp, rfl, rfl⟩ rfl
  rw [h]

/-! Claim C10. -/

theorem drain_nil_error (showHidden : Bool) (pre post : List (FetchEvent RNode))
    (hpre : ∀ e ∈ pre, ∃ c, e = FetchEvent.fileEv c) :
    drain showHidden (pre ++ FetchEvent.nilEv :: post) = .error () := by
  induction pre with
  | nil => rfl
  | cons e rest ih =>
    obtain ⟨c, rfl⟩ := hpre e (List.mem_cons_self _ _)
    simp only [List.cons_append, drain, List.append_eq]
    rw [ih (fun x hx => hpre x (List.mem_cons_of_mem _ hx))]

theorem listMatchesLoop_skip_nil (g : Commands) (pre post : List (FetchEvent RNode)) :
    ∀ pidx, listMatchesLoop g (pre ++ FetchEvent.nilEv :: post) pidx =
      listMatchesLoop g (pre ++ post) pidx := by
  induction pre with
  | nil => intro pidx; rfl
  | cons e rest ih =>
    intro pidx
    cases e with
    | errEv => rfl
    | nilEv =>
      simp only [List.cons_append, listMatchesLoop]
      exact ih pidx
    | fileEv m =>
      simp only [List.cons_append, listMatchesLoop, List.append_eq, ih]

theorem listSharedLoop_skip_nil (g : Commands) (relPath : String)
    (pre post : List (FetchEvent RNode)) :
    listSharedLoop g relPath (pre ++ FetchEvent.nilEv :: post) =
      listSharedLoop g relPath (pre ++ post) := by
  induction pre with
  | nil => rfl
  | cons e rest ih =>
    cases e with
    | errEv => rfl
    | nilEv =>
      simp only [List.cons_append, listSharedLoop]
      exact ih
    | fileEv s =>
      simp only [List.cons_append, listSharedLoop, List.append_eq, ih]

/-- Claim C10: a `nil` entry arriving on the files channel during a
directory's page drain makes that `breadthFirst` call return failure
immediately — independently of whatever events would follow, with nothing
rendered at that level — whereas the `ListMatches` drain and the
shared-listing drain skip `nil` entries and continue consuming (removing
the `nil` event leaves their results unchanged). -/
theorem C10_nil_entry (g : Commands) (travSt : traversalSt) (level pidx : Nat)
    (f : File) (pre post : List (FetchEvent RNode)) :
    ((travSt.node = RNode.node f (pre ++ FetchEvent.nilEv :: post)) → f.IsDir = true →
      travSt.depth ≠ 0 → (∀ e ∈ pre, ∃ c, e = FetchEvent.fileEv c) →
      breadthFirst g travSt level pidx = ⟨false, [], pidx⟩) ∧
    (∀ pidx2, listMatchesLoop g (pre ++ FetchEvent.nilEv :: post) pidx2 =
      listMatchesLoop g (pre ++ post) pidx2) ∧
    (∀ relPath, listSharedLoop g relPath (pre ++ FetchEvent.nilEv :: post) =
      listSharedLoop g relPath (pre ++ post)) := by
  refine ⟨?_, listMatchesLoop_skip_nil g pre post, fun rp => listSharedLoop_skip_nil g rp pre post⟩
  intro hnode hdir hdep hpre
  exact breadthFirst_drain_error g travSt level pidx f _ hnode hdir hdep
    (drain_nil_error g.opts.Hidden pre post hpre)

/-- Sample traversal state whose page stream delivers one entry and then a
`nil` entry. -/
def travStNil : traversalSt :=
  { node := RNode.node fileDirEx
      [FetchEvent.fileEv (RNode.node fileRegEx []), FetchEvent.nilEv]
    headPath := ""
    depth := 1
    mask := 0
    inTrash := false }

/-- Claim C10, witness: the nil entry aborts the branch with nothing
rendered, while the match and shared drains just skip it. -/
theorem C10_nil_entry_witness :
    breadthFirst gEx travStNil 0 0 = ⟨false, [], 0⟩ ∧
    listMatchesLoop gEx [FetchEvent.fileEv (RNode.node fileRegEx []),
      FetchEvent.nilEv] 0 =
      listMatchesLoop gEx [FetchEvent.fileEv (RNode.node fileRegEx [])] 0 ∧
    listSharedLoop gEx "p" [FetchEvent.fileEv (RNode.node fileRegEx []),
      FetchEvent.nilEv] =
      listSharedLoop gEx "p" [FetchEvent.fileEv (RNode.node fileRegEx [])] := by
  have h := C10_nil_entry gEx travStNil 0 0 fileDirEx
    [FetchEvent.fileEv (RNode.node fileRegEx [])] []
  exact ⟨h.1 rfl rfl (by decide) (by intro e he; simp at he; exact ⟨_, he⟩),
    h.2.1 0, h.2.2 "p"⟩

/-! Claim C4. -/

/-- Whether a lookup outcome is a fatal (non-not-found) error. -/
def LookupRes.isErr : LookupRes → Bool
  | .errRes => true
  | .notFound => false
  | .found _ => false

/-- Whether a lookup outcome is not-found. -/
def LookupRes.isNotFound : LookupRes → Bool
  | .errRes => false
  | .notFound => true
  | .found _ => false

/-- The resolver `Commands.List` uses for one locator (`FindById` when
`byId`, else `FindByPath`). -/
def resolveOf (g : Commands) (byId : Bool) (s : String) : LookupRes :=
  if byId then g.resolveById s else g.resolveByPath s

theorem resolveSources_spec (g : Commands) (byId : Bool) (sources : List String) :
    ((match resolveSources g byId sources with
      | .error _ => true
      | .ok _ => false) = sources.any (fun s => (resolveOf g byId s).isErr)) ∧
    (∀ kvList warns, resolveSources g byId sources = .ok (kvList, warns) →
      warns = (sources.filter (fun s => (resolveOf g byId s).isNotFound)).map warnMsg) := by
  induction sources with
  | nil =>
    constructor
    · rfl
    · intro kvList warns h
      simp only [resolveSources, Except.ok.injEq, Prod.mk.injEq] at h
      rw [← h.2]
      rfl
  | cons s rest ih =>
    constructor
    · simp only [resolveSources, List.any_cons]
      cases hr : (if byId = true then g.resolveById s else g.resolveByPath s) with
      | errRes =>
        rw [show resolveOf g byId s = LookupRes.errRes from hr]
        simp [LookupRes.isErr]
      | notFound =>
        rw [show resolveOf g byId s = LookupRes.notFound from hr]
        rw [show LookupRes.notFound.isErr = false from rfl, Bool.false_or]
        rw [← ih.1]
        cases hrest : resolveSources g byId rest with
        | error ws => rfl
        | ok p => obtain ⟨kvs, ws⟩ := p; rfl
      | found r =>
        rw [show resolveOf g byId s = LookupRes.found r from hr]
        rw [show (LookupRes.found r).isErr = false from rfl, Bool.false_or]
        rw [← ih.1]
        cases hrest : resolveSources g byId rest with
        | error ws => rfl
        | ok p => obtain ⟨kvs, ws⟩ := p; rfl
    · intro kvList warns h
      simp only [resolveSources] at h
      cases hr : (if byId = true then g.resolveById s else g.resolveByPath s) with
      | errRes => rw [hr] at h; exact Except.noConfusion h
      | notFound =>
        rw [hr] at h
        cases hrest : resolveSources g byId rest with
        | error ws => rw [hrest] at h; exact Except.noConfusion h
        | ok p =>
          rw [hrest] at h
          obtain ⟨kvs, ws⟩ := p
          simp only [Except.ok.injEq, Prod.mk.injEq] at h
          rw [← h.2, ih.2 kvs ws hrest]
          rw [List.filter_cons]
          rw [show resolveOf g byId s = LookupRes.notFound from hr]
          rfl
      | found r =>
        rw [hr] at h
        cases hrest : resolveSources g byId rest with
        | error ws => rw [hrest] at h; exact Except.noConfusion h
        | ok p =>
          rw [hrest] at h
          obtain ⟨kvs, ws⟩ := p
          simp only [Except.ok.injEq, Prod.mk.injEq] at h
          rw [← h.2, ih.2 kvs ws hrest]
          rw [List.filter_cons]
          rw [show resolveOf g byId s = LookupRes.found r from hr]
          rfl

/-- Claim C4: in the `List` entry point, the invocation is fatal exactly
when some root locator's lookup reports an error other than not-found; a
fatal invocation produces no traversal output at all (resolution completes
before any traversal begins); and when no locator errs the invocation is
non-fatal (success is still possible) with exactly one warning, in order,
per not-found locator. -/
theorem C4_list_roots (g : Commands) (byId : Bool) :
    ((Commands.List g byId).fatal =
      g.opts.Sources.any (fun s => (resolveOf g byId s).isErr)) ∧
    ((Commands.List g byId).fatal = true → (Commands.List g byId).events = []) ∧
    ((∀ s ∈ g.opts.Sources, resolveOf g byId s ≠ LookupRes.errRes) →
      (Commands.List g byId).fatal = false ∧
      (Commands.List g byId).warnings =
        (g.opts.Sources.filter (fun s => (resolveOf g byId s).isNotFound)).map warnMsg) := by
  have hspec := resolveSources_spec g byId g.opts.Sources
  refine ⟨?_, ?_, ?_⟩
  · rw [← hspec.1]
    unfold Commands.List
    cases hres : resolveSources g byId g.opts.Sources with
    | error ws => rfl
    | ok p => obtain ⟨kvs, ws⟩ := p; rfl
  · unfold Commands.List
    cases hres : resolveSources g byId g.opts.Sources with
    | error ws => intro _; rfl
    | ok p =>
      obtain ⟨kvs, ws⟩ := p
      intro h
      exact absurd h (by simp)
  · intro hall
    have hany : g.opts.Sources.any (fun s => (resolveOf g byId s).isErr) = false := by
      rw [List.any_eq_false]
      intro s hs
      have := hall s hs
      cases hr : resolveOf g byId s with
      | errRes => exact absurd hr this
      | notFound => simp [LookupRes.isErr]
      | found r => simp [LookupRes.isErr]
    have h1 : (match resolveSources g byId g.opts.Sources with
        | .error _ => true
        | .ok _ => false) = false := by rw [hspec.1, hany]
    unfold Commands.List
    cases hres : resolveSources g byId g.opts.Sources with
    | error ws => rw [hres] at h1; exact absurd h1 (by simp)
    | ok p =>
      obtain ⟨kvs, ws⟩ := p
      exact ⟨rfl, hspec.2 kvs ws hres⟩

/-- Sample command context for the three-roots scenario: locator `b` is
missing remotely, `a` and `c` resolve. -/
def gRoots : Commands :=
  { opts := { Depth := 0, TypeMask := 0, Hidden := false, InTrash := false, Path := "",
              Sources := ["a", "b", "c"], Meta := none, PageSize := 100, canPrompt := true }
    resolveByPath := fun s =>
      if s == "b" then LookupRes.notFound else LookupRes.found (RNode.node fileRegEx [])
    resolveById := fun _ => LookupRes.notFound
    parentPather := fun _ => ""
    findMatches := fun _ => []
    findByPathShared := fun _ => []
    nextPage := fun _ => true }

/-- Claim C4, witness: with three requested roots of which one is missing,
the invocation is not fatal and logs exactly the per-root warning for the
missing locator. -/
theorem C4_list_roots_witness :
    (Commands.List gRoots false).fatal = false ∧
    (Commands.List gRoots false).warnings = [warnMsg "b"] := by
  have h := (C4_list_roots gRoots false).2.2 (by
    intro s hs
    simp only [gRoots, List.mem_cons, List.not_mem_nil, or_false] at hs
    rcases hs with rfl | rfl | rfl <;>
      simp [resolveOf, gRoots])
  refine ⟨h.1, ?_⟩
  rw [h.2]
  rfl

/-! Claim C9. -/

/-- Claim C9: in disk-usage-only mode the renderer emits exactly the
left-justified size, a space, and the joined path with a newline — no
directory/shared indicators, role, owner, version, id or modification
time fields, regardless of the minimal flag and of any mask bits. -/
theorem C9_diskUsage_render (f : File) (mn : Bool) (mk : Nat) (par : String) :
    pretty f { minimal := mn, mask := mk, parent := par, diskUsageOnly := true } =
      leftJustify (toString f.Size) 12 ++ " " ++ sepJoin "/" [par, f.Name] ++ "\n" := by
  rfl

end drive
